import Mathlib

/-!
Verification of the host-side framed transfer protocol of `sendData.py`.

The embedding covers the two framing functions `toU32` and `chopMessage`
(a Python string is modelled as its list of Unicode code points, and
`str.encode()` as UTF-8 encoding of those code points), and the block
transfer loop, modelled over an abstract transport whose per-index write
and read results are given as functions, recording the trace of write and
read events together with the final outcome (printed digest, or the message
of the raised exception).
-/

namespace SendData

/-- Source `toU32(x)`: the four bytes `x % 256, (x >> 8) % 256, (x >> 16) % 256,
(x >> 24) % 256` (Python `>>` on a non-negative integer is division by a
power of two). -/
def toU32 (x : Nat) : List Nat :=
  [x % 256, (x / 256) % 256, (x / 65536) % 256, (x / 16777216) % 256]

/-- Little-endian value of a byte list; used to state what the header encodes. -/
def leVal (bs : List Nat) : Nat := bs.foldr (fun b acc => b + 256 * acc) 0

/-- Model of Python `str.encode()` on one encodable code point: its UTF-8
byte sequence. The error path of the source encoder — a lone surrogate
raises UnicodeEncodeError — is modelled separately by `utf8EncodeE`. -/
def utf8Encode (c : Nat) : List Nat :=
  if c < 128 then [c]
  else if c < 2048 then [192 + c / 64, 128 + c % 64]
  else if c < 65536 then [224 + c / 4096, 128 + (c / 64) % 64, 128 + c % 64]
  else [240 + c / 262144, 128 + (c / 4096) % 64, 128 + (c / 64) % 64, 128 + c % 64]

/-- Model of Python `str.encode()`: UTF-8 bytes of the whole string, a string
being modelled as its list of code points. -/
def strEncode (s : List Nat) : List Nat := s.flatMap utf8Encode

/-- Python slice `l[a:b]` for `0 ≤ a ≤ b`. -/
def pySlice (l : List Nat) (a b : Nat) : List Nat := (l.take b).drop a

/-- The `while i < strLen` loop of `chopMessage`: append `data[i:end_pos]`
with `end_pos = min(strLen, i + 64)` and continue from `end_pos`. -/
def chopLoop (data : List Nat) (strLen i : Nat) : List (List Nat) :=
  if _h : i < strLen then
    pySlice data i (min strLen (i + 64)) :: chopLoop data strLen (min strLen (i + 64))
  else []
termination_by strLen - i
decreasing_by omega

/-- Source `chopMessage(str)`: `data = toU32(len(str)) + str.encode()`, then the
chopping loop over `data` from index 0 with `strLen = len(data)`. -/
def chopMessage (s : List Nat) : List (List Nat) :=
  chopLoop (toU32 s.length ++ strEncode s) (toU32 s.length ++ strEncode s).length 0

/-- Model of Python `str.encode()` on one code point including its error
path: a lone surrogate (U+D800 to U+DFFF, code points 55296 to 57343) cannot
be UTF-8 encoded and raises UnicodeEncodeError; every other code point
encodes to its UTF-8 bytes. -/
def utf8EncodeE (c : Nat) : Except String (List Nat) :=
  if 55296 ≤ c ∧ c ≤ 57343 then Except.error "UnicodeEncodeError"
  else Except.ok (utf8Encode c)

/-- Model of Python `str.encode()` on a whole string including its error
path: the first lone surrogate raises, otherwise the encoded bytes of all
characters are concatenated. -/
def strEncodeE : List Nat → Except String (List Nat)
  | [] => Except.ok []
  | c :: s =>
    match utf8EncodeE c with
    | Except.error e => Except.error e
    | Except.ok bs =>
      match strEncodeE s with
      | Except.error e => Except.error e
      | Except.ok rest => Except.ok (bs ++ rest)

/-- Source `chopMessage(str)` including the error path of its `str.encode()`
call: if encoding raises, chopMessage raises; otherwise it chops the header
plus encoded bytes exactly as `chopMessage`. -/
def chopMessageE (s : List Nat) : Except String (List (List Nat)) :=
  match strEncodeE s with
  | Except.error e => Except.error e
  | Except.ok enc =>
    Except.ok (chopLoop (toU32 s.length ++ enc) (toU32 s.length ++ enc).length 0)

/-- Front-to-back chunks of at most 64 bytes; the closed form the chopping
loop computes. -/
def chunks (d : List Nat) : List (List Nat) :=
  if h : d = [] then []
  else d.take 64 :: chunks (d.drop 64)
termination_by d.length
decreasing_by
  have : 0 < d.length := List.length_pos.mpr h
  simp only [List.length_drop]
  omega

/-- One observable transport interaction of the loop body: a completed write
of a block, or a completed read returning some response bytes, each tagged
with the loop index at which it happened. -/
inductive Event where
  | write (i : Nat) (block : List Nat)
  | read (i : Nat) (resp : List Nat)
deriving DecidableEq

/-- Final outcome of the loop: raised exception message, printed digest, or
the loop body never ran (empty block list). -/
inductive Outcome where
  | noBlocks
  | success (digest : List Nat)
  | raised (msg : String)
deriving DecidableEq

/-- The transport collaborator: the result of the i-th `outep.write` call and
of the i-th `inep.read(64)` call (an `Except.error` models the pyusb call
raising, with the message of the raised exception). -/
structure Transport where
  writeRes : Nat → Except String Unit
  readRes : Nat → Except String (List Nat)

/-- Source response_str: the join of chr(x) over the response bytes, i.e. one
character per byte. -/
def respToStr (resp : List Nat) : String := String.mk (resp.map Char.ofNat)

/-- Message of `Exception("Device reported an error: " + response_str)`. -/
def deviceErrorMsg (resp : List Nat) : String :=
  "Device reported an error: " ++ respToStr resp

/-- Message of the exception raised when the final block gets an empty
response (text verbatim from the source, typos included). -/
def incompleteHandshakeMsg : String :=
  "Device expected more data that was announced in the hashshake!"

/-- The `for i in range(len(blocks))` loop of the source, over the remaining
blocks with `i` the current index and `n = len(blocks)`: write the block,
read the response, and classify it by position (`(i + 1) == len(blocks)`
selects the final-block branch). Returns the event trace and the outcome. -/
def transferLoop (t : Transport) (n : Nat) : Nat → List (List Nat) → List Event × Outcome
  | _, [] => ([], Outcome.noBlocks)
  | i, b :: rest =>
    match t.writeRes i with
    | Except.error e => ([], Outcome.raised e)
    | Except.ok _ =>
      match t.readRes i with
      | Except.error e => ([Event.write i b], Outcome.raised e)
      | Except.ok resp =>
        if i + 1 = n then
          if resp.length = 0 then
            ([Event.write i b, Event.read i resp], Outcome.raised incompleteHandshakeMsg)
          else if resp.length ≠ 32 then
            ([Event.write i b, Event.read i resp], Outcome.raised (deviceErrorMsg resp))
          else
            ([Event.write i b, Event.read i resp], Outcome.success resp)
        else
          if resp.length ≠ 0 then
            ([Event.write i b, Event.read i resp], Outcome.raised (deviceErrorMsg resp))
          else
            let r := transferLoop t n (i + 1) rest
            (Event.write i b :: Event.read i resp :: r.1, r.2)

/-- The whole transfer: the source loop starting at index 0 over all blocks. -/
def transfer (t : Transport) (blocks : List (List Nat)) : List Event × Outcome :=
  transferLoop t blocks.length 0 blocks

/-- The trace of a fully successful transfer: for each block, its write
followed by its read, the reads being empty acks except the final digest. -/
def okTrace (n : Nat) (d : List Nat) : Nat → List (List Nat) → List Event
  | _, [] => []
  | i, b :: rest =>
    Event.write i b :: Event.read i (if i + 1 = n then d else []) :: okTrace n d (i + 1) rest

/-- The trace of the acknowledged blocks at indices `i, i+1, ...` covering the
first `k` of the remaining blocks. -/
def ackTrace : Nat → Nat → List (List Nat) → List Event
  | _, 0, _ => []
  | _, _ + 1, [] => []
  | i, k + 1, b :: rest => Event.write i b :: Event.read i [] :: ackTrace (i + 1) k rest

def isWriteEvent : Event → Bool
  | Event.write _ _ => true
  | Event.read _ _ => false

def isReadEvent : Event → Bool
  | Event.write _ _ => false
  | Event.read _ _ => true

theorem take_min_left (d : List Nat) (k : Nat) : d.take (min d.length k) = d.take k := by
  rcases le_total d.length k with h | h
  · rw [min_eq_left h, List.take_length, List.take_of_length_le h]
  · rw [min_eq_right h]

theorem drop_min_left (d : List Nat) (k : Nat) : d.drop (min d.length k) = d.drop k := by
  rcases le_total d.length k with h | h
  · rw [min_eq_left h, List.drop_length, List.drop_eq_nil_of_le h]
  · rw [min_eq_right h]

theorem chopLoop_eq_chunks (data : List Nat) (i : Nat) :
    chopLoop data data.length i = chunks (data.drop i) := by
  rw [chopLoop]
  by_cases h : i < data.length
  · rw [dif_pos h]
    have hne : data.drop i ≠ [] := by
      intro hnil
      have := List.length_drop i data
      rw [hnil] at this
      simp at this
      omega
    rw [chunks, dif_neg hne]
    have hhead : pySlice data i (min data.length (i + 64)) = (data.drop i).take 64 := by
      unfold pySlice
      rw [take_min_left, List.drop_take]
      congr 1
      omega
    have hdrop : (data.drop i).drop 64 = data.drop (min data.length (i + 64)) := by
      rw [List.drop_drop, drop_min_left]
    have hrec := chopLoop_eq_chunks data (min data.length (i + 64))
    rw [hhead, hrec, hdrop]
  · rw [dif_neg h]
    have : data.drop i = [] := List.drop_eq_nil_of_le (by omega)
    rw [this, chunks]
    simp
termination_by data.length - i
decreasing_by omega

theorem chopMessage_eq_chunks (s : List Nat) :
    chopMessage s = chunks (toU32 s.length ++ strEncode s) := by
  unfold chopMessage
  rw [chopLoop_eq_chunks, List.drop_zero]

theorem chunks_flatten (d : List Nat) : (chunks d).flatten = d := by
  rw [chunks]
  by_cases h : d = []
  · rw [dif_pos h, h]
    rfl
  · rw [dif_neg h]
    rw [List.flatten_cons, chunks_flatten (d.drop 64), List.take_append_drop]
termination_by d.length
decreasing_by
  have : 0 < d.length := List.length_pos.mpr h
  simp only [List.length_drop]
  omega

theorem chunks_length (d : List Nat) : (chunks d).length = (d.length + 63) / 64 := by
  rw [chunks]
  by_cases h : d = []
  · rw [dif_pos h, h]
    rfl
  · rw [dif_neg h]
    have hpos : 0 < d.length := List.length_pos.mpr h
    rw [List.length_cons, chunks_length (d.drop 64), List.length_drop]
    omega
termination_by d.length
decreasing_by
  have : 0 < d.length := List.length_pos.mpr h
  simp only [List.length_drop]
  omega

theorem chunks_block_le (d : List Nat) : ∀ b ∈ chunks d, b.length ≤ 64 := by
  rw [chunks]
  by_cases h : d = []
  · rw [dif_pos h]
    intro b hb
    simp at hb
  · rw [dif_neg h]
    intro b hb
    rcases List.mem_cons.mp hb with hb | hb
    · subst hb
      rw [List.length_take]
      omega
    · exact chunks_block_le (d.drop 64) b hb
termination_by d.length
decreasing_by
  have : 0 < d.length := List.length_pos.mpr h
  simp only [List.length_drop]
  omega

theorem chunks_singleton (d : List Nat) (hne : d ≠ []) (hle : d.length ≤ 64) :
    chunks d = [d] := by
  rw [chunks, dif_neg hne, List.take_of_length_le hle, List.drop_eq_nil_of_le hle,
    chunks]
  rfl

theorem toU32_length (x : Nat) : (toU32 x).length = 4 := rfl

theorem chopMessage_flatten_eq (s : List Nat) :
    (chopMessage s).flatten = toU32 s.length ++ strEncode s := by
  rw [chopMessage_eq_chunks, chunks_flatten]

theorem chopMessage_length_eq (s : List Nat) :
    (chopMessage s).length = ((toU32 s.length ++ strEncode s).length + 63) / 64 := by
  rw [chopMessage_eq_chunks, chunks_length]

theorem utf8Encode_length_pos (c : Nat) : 1 ≤ (utf8Encode c).length := by
  unfold utf8Encode
  split
  · simp
  · split
    · simp
    · split
      · simp
      · simp

theorem strEncode_length_ge (s : List Nat) : s.length ≤ (strEncode s).length := by
  induction s with
  | nil => simp [strEncode]
  | cons c s ih =>
    have := utf8Encode_length_pos c
    simp only [strEncode, List.flatMap_cons, List.length_append, List.length_cons]
    simp only [strEncode] at ih
    omega

theorem strEncode_ascii (s : List Nat) (hs : ∀ c ∈ s, c < 128) : strEncode s = s := by
  induction s with
  | nil => rfl
  | cons c s ih =>
    have hc : c < 128 := hs c (List.mem_cons_self c s)
    simp only [strEncode, List.flatMap_cons]
    rw [show utf8Encode c = [c] from by unfold utf8Encode; rw [if_pos hc]]
    have := ih (fun x hx => hs x (List.mem_cons_of_mem c hx))
    simp only [strEncode] at this
    rw [this]
    rfl

theorem transferLoop_cons_ack (t : Transport) (n i : Nat) (b : List Nat)
    (rest : List (List Nat))
    (hw : t.writeRes i = Except.ok ()) (hr : t.readRes i = Except.ok [])
    (hin : i + 1 ≠ n) :
    transferLoop t n i (b :: rest) =
      (Event.write i b :: Event.read i [] :: (transferLoop t n (i + 1) rest).1,
       (transferLoop t n (i + 1) rest).2) := by
  simp only [transferLoop, hw, hr]
  rw [if_neg hin]
  simp

theorem transferLoop_cons_last (t : Transport) (n i : Nat) (b : List Nat)
    (rest : List (List Nat)) (resp : List Nat)
    (hw : t.writeRes i = Except.ok ()) (hr : t.readRes i = Except.ok resp)
    (hin : i + 1 = n) :
    transferLoop t n i (b :: rest) =
      if resp.length = 0 then
        ([Event.write i b, Event.read i resp], Outcome.raised incompleteHandshakeMsg)
      else if resp.length ≠ 32 then
        ([Event.write i b, Event.read i resp], Outcome.raised (deviceErrorMsg resp))
      else
        ([Event.write i b, Event.read i resp], Outcome.success resp) := by
  simp only [transferLoop, hw, hr]
  rw [if_pos hin]

theorem transferLoop_cons_mid_err (t : Transport) (n i : Nat) (b : List Nat)
    (rest : List (List Nat)) (resp : List Nat)
    (hw : t.writeRes i = Except.ok ()) (hr : t.readRes i = Except.ok resp)
    (hin : i + 1 ≠ n) (hne : resp.length ≠ 0) :
    transferLoop t n i (b :: rest) =
      ([Event.write i b, Event.read i resp], Outcome.raised (deviceErrorMsg resp)) := by
  simp only [transferLoop, hw, hr]
  rw [if_neg hin, if_pos hne]

theorem transferLoop_cons_write_err (t : Transport) (n i : Nat) (b : List Nat)
    (rest : List (List Nat)) (e : String)
    (hw : t.writeRes i = Except.error e) :
    transferLoop t n i (b :: rest) = ([], Outcome.raised e) := by
  simp only [transferLoop, hw]

theorem transferLoop_all_acks (t : Transport) (n : Nat) (d : List Nat)
    (hd : d.length = 32) (hlast : t.readRes (n - 1) = Except.ok d) :
    ∀ (rest : List (List Nat)) (i : Nat), i + rest.length = n → rest ≠ [] →
    (∀ j, i ≤ j → j < n → t.writeRes j = Except.ok ()) →
    (∀ j, i ≤ j → j + 1 < n → t.readRes j = Except.ok []) →
    transferLoop t n i rest = (okTrace n d i rest, Outcome.success d) := by
  intro rest
  induction rest with
  | nil =>
    intro i _ hne _ _
    exact absurd rfl hne
  | cons b rest ih =>
    intro i hlen _ hw hr
    cases rest with
    | nil =>
      have hin : i + 1 = n := by simpa using hlen
      have hwi : t.writeRes i = Except.ok () := hw i le_rfl (by omega)
      have hri : t.readRes i = Except.ok d := by
        have h1 : i = n - 1 := by omega
        rw [h1]
        exact hlast
      rw [transferLoop_cons_last t n i b [] d hwi hri hin]
      rw [if_neg (by omega), if_neg (by omega)]
      simp [okTrace, hin]
    | cons b2 rest2 =>
      have hlen2 : i + rest2.length + 2 = n := by
        simp only [List.length_cons] at hlen
        omega
      have hin : i + 1 ≠ n := by omega
      have hwi : t.writeRes i = Except.ok () := hw i le_rfl (by omega)
      have hri : t.readRes i = Except.ok [] := hr i le_rfl (by omega)
      rw [transferLoop_cons_ack t n i b (b2 :: rest2) hwi hri hin]
      have hrec := ih (i + 1) (by simp only [List.length_cons] at hlen ⊢; omega)
        (by simp) (fun j hj hjn => hw j (by omega) hjn)
        (fun j hj hjn => hr j (by omega) hjn)
      rw [hrec]
      simp [okTrace, hin]

theorem transferLoop_ack_prior (t : Transport) (n : Nat) :
    ∀ (k : Nat) (rest : List (List Nat)) (i : Nat), i + rest.length = n →
    k ≤ rest.length → i + k < n →
    (∀ j, i ≤ j → j < i + k → t.writeRes j = Except.ok ()) →
    (∀ j, i ≤ j → j < i + k → t.readRes j = Except.ok []) →
    transferLoop t n i rest =
      (ackTrace i k rest ++ (transferLoop t n (i + k) (rest.drop k)).1,
       (transferLoop t n (i + k) (rest.drop k)).2) := by
  intro k
  induction k with
  | zero =>
    intro rest i _ _ _ _ _
    simp [ackTrace]
  | succ k ih =>
    intro rest i hlen hk hkn hw hr
    cases rest with
    | nil => simp at hk
    | cons b rest2 =>
      have hwi : t.writeRes i = Except.ok () := hw i le_rfl (by omega)
      have hri : t.readRes i = Except.ok [] := hr i le_rfl (by omega)
      have hin : i + 1 ≠ n := by omega
      rw [transferLoop_cons_ack t n i b rest2 hwi hri hin]
      have hrec := ih rest2 (i + 1) (by simp only [List.length_cons] at hlen; omega)
        (by simp only [List.length_cons] at hk; omega) (by omega)
        (fun j hj hjn => hw j (by omega) (by omega))
        (fun j hj hjn => hr j (by omega) (by omega))
      have hadd : i + 1 + k = i + (k + 1) := by omega
      rw [hadd] at hrec
      rw [hrec]
      simp only [ackTrace, List.cons_append, List.drop_succ_cons]

theorem ackTrace_write_mem :
    ∀ (k s : Nat) (rest : List (List Nat)) (j : Nat) (b : List Nat),
    Event.write j b ∈ ackTrace s k rest → s ≤ j ∧ j < s + k := by
  intro k
  induction k with
  | zero =>
    intro s rest j b hmem
    simp [ackTrace] at hmem
  | succ k ih =>
    intro s rest j b hmem
    cases rest with
    | nil => simp [ackTrace] at hmem
    | cons c rest2 =>
      simp only [ackTrace, List.mem_cons] at hmem
      rcases hmem with h1 | h1 | h1
      · rw [Event.write.injEq] at h1
        omega
      · exact absurd h1 (by simp)
      · have := ih (s + 1) rest2 j b h1
        omega

theorem okTrace_countP_write (n : Nat) (d : List Nat) :
    ∀ (rest : List (List Nat)) (i : Nat),
    (okTrace n d i rest).countP isWriteEvent = rest.length := by
  intro rest
  induction rest with
  | nil => intro i; rfl
  | cons b rest ih =>
    intro i
    simp [okTrace, List.countP_cons, isWriteEvent, ih (i + 1)]

theorem okTrace_countP_read (n : Nat) (d : List Nat) :
    ∀ (rest : List (List Nat)) (i : Nat),
    (okTrace n d i rest).countP isReadEvent = rest.length := by
  intro rest
  induction rest with
  | nil => intro i; rfl
  | cons b rest ih =>
    intro i
    simp [okTrace, List.countP_cons, isReadEvent, ih (i + 1)]

theorem incomplete_ne_deviceError (resp : List Nat) :
    incompleteHandshakeMsg ≠ deviceErrorMsg resp := by
  intro h
  have hd : incompleteHandshakeMsg.data = (deviceErrorMsg resp).data := by rw [h]
  have hApp : (deviceErrorMsg resp).data =
      "Device reported an error: ".data ++ (respToStr resp).data := by
    unfold deviceErrorMsg
    exact String.data_append _ _
  have h26 : incompleteHandshakeMsg.data.take ("Device reported an error: ".data.length) =
      "Device reported an error: ".data := by
    rw [hd, hApp]
    exact List.take_left _ _
  exact absurd h26 (by decide)

theorem strEncode_length_eq_iff (s : List Nat) :
    (strEncode s).length = s.length ↔ ∀ c ∈ s, (utf8Encode c).length = 1 := by
  induction s with
  | nil => simp [strEncode]
  | cons c s ih =>
    have hpos := utf8Encode_length_pos c
    have hge := strEncode_length_ge s
    simp only [strEncode] at ih hge ⊢
    simp only [List.flatMap_cons, List.length_append, List.length_cons]
    constructor
    · intro h x hx
      rcases List.mem_cons.mp hx with rfl | h1
      · omega
      · exact ih.mp (by omega) x h1
    · intro h
      have h1 : (utf8Encode c).length = 1 := h c (List.mem_cons_self c s)
      have h2 := ih.mpr (fun x hx => h x (List.mem_cons_of_mem c hx))
      omega

/-- C1 (amended): for every payload of length L at most 10000 all of whose
characters are single-byte (code point below 128, so the character count and
the payload byte count coincide), chopMessage produces exactly
ceil((4+L)/64) = (4+L+63)/64 blocks, each of length at most 64, and the
concatenation of all blocks is the 4-byte little-endian header followed by
the payload bytes. -/
theorem chopMessage_roundtrip_ascii (s : List Nat) (_hL : s.length ≤ 10000)
    (hs : ∀ c ∈ s, c < 128) :
    (chopMessage s).length = (4 + s.length + 63) / 64 ∧
    (∀ b ∈ chopMessage s, b.length ≤ 64) ∧
    (chopMessage s).flatten = toU32 s.length ++ s ∧
    (strEncode s).length = s.length := by
  have henc : strEncode s = s := strEncode_ascii s hs
  refine ⟨?_, ?_, ?_, ?_⟩
  · rw [chopMessage_length_eq, henc, List.length_append, toU32_length]
  · rw [chopMessage_eq_chunks]
    exact chunks_block_le _
  · rw [chopMessage_flatten_eq, henc]
  · rw [henc]

/-- C1 witness: a 70-byte ASCII payload satisfies the amended round-trip law. -/
theorem chopMessage_roundtrip_ascii_witness :
    (List.replicate 70 97 : List Nat).length ≤ 10000 ∧
    (∀ c ∈ (List.replicate 70 97 : List Nat), c < 128) ∧
    ((chopMessage (List.replicate 70 97)).length = (4 + (List.replicate 70 97 : List Nat).length + 63) / 64 ∧
     (∀ b ∈ chopMessage (List.replicate 70 97), b.length ≤ 64) ∧
     (chopMessage (List.replicate 70 97)).flatten = toU32 (List.replicate 70 97 : List Nat).length ++ List.replicate 70 97 ∧
     (strEncode (List.replicate 70 97)).length = (List.replicate 70 97 : List Nat).length) :=
  ⟨by decide, by decide,
    chopMessage_roundtrip_ascii (List.replicate 70 97) (by decide) (by decide)⟩

/-- C1 counterexample: the character with code point 233 encodes to the two
bytes [195, 169], so for that one-character payload the payload byte sequence
has length 2 while the header encodes the character count 1: the concatenation
of the blocks is not the little-endian encoding of the payload byte length
followed by the payload bytes; and with 31 such characters (66 data bytes,
2 blocks) the block count also differs from ceil((4+L)/64) = 1 computed from
the character count L = 31. -/
theorem chopMessage_roundtrip_counterexample :
    strEncode [233] = [195, 169] ∧
    (chopMessage [233]).flatten ≠ toU32 (strEncode [233]).length ++ strEncode [233] ∧
    (chopMessage (List.replicate 31 233)).length ≠
      (4 + (List.replicate 31 233 : List Nat).length + 63) / 64 := by
  refine ⟨by decide, ?_, ?_⟩
  · rw [chopMessage_flatten_eq]
    decide
  · rw [chopMessage_length_eq]
    decide

/-- C7: boundary behaviour of chopMessage, with the payload length measured in
payload bytes: an empty payload gives exactly one 4-byte block (the header
alone); a 60-byte payload gives exactly one 64-byte block; a 61-byte payload
gives exactly two blocks of sizes 64 and 1, in that order. -/
theorem chopMessage_boundaries (s : List Nat) :
    ((strEncode s).length = 0 →
      chopMessage s = [toU32 s.length] ∧ (toU32 s.length).length = 4) ∧
    ((strEncode s).length = 60 → ∃ b, chopMessage s = [b] ∧ b.length = 64) ∧
    ((strEncode s).length = 61 →
      ∃ b c, chopMessage s = [b, c] ∧ b.length = 64 ∧ c.length = 1) := by
  refine ⟨?_, ?_, ?_⟩
  · intro h0
    have he : strEncode s = [] := List.length_eq_zero.mp h0
    refine ⟨?_, toU32_length _⟩
    rw [chopMessage_eq_chunks, he, List.append_nil]
    exact chunks_singleton _ (by simp [toU32]) (by rw [toU32_length]; omega)
  · intro h60
    refine ⟨toU32 s.length ++ strEncode s, ?_, ?_⟩
    · rw [chopMessage_eq_chunks]
      refine chunks_singleton _ ?_ ?_
      · rw [← List.length_pos, List.length_append, toU32_length]
        omega
      · rw [List.length_append, toU32_length, h60]
    · rw [List.length_append, toU32_length, h60]
  · intro h61
    have hlen : (toU32 s.length ++ strEncode s).length = 65 := by
      rw [List.length_append, toU32_length, h61]
    refine ⟨(toU32 s.length ++ strEncode s).take 64, (toU32 s.length ++ strEncode s).drop 64,
      ?_, ?_, ?_⟩
    · rw [chopMessage_eq_chunks, chunks,
        dif_neg (show toU32 s.length ++ strEncode s ≠ [] from by
          rw [← List.length_pos, hlen]; omega)]
      congr 1
      refine chunks_singleton _ ?_ ?_
      · rw [← List.length_pos, List.length_drop, hlen]
        omega
      · rw [List.length_drop, hlen]
        omega
    · rw [List.length_take, hlen]
      decide
    · rw [List.length_drop, hlen]

/-- C7 witness: the three boundary cases at concrete ASCII payloads of 0, 60
and 61 bytes. -/
theorem chopMessage_boundaries_witness :
    (chopMessage [] = [toU32 ([] : List Nat).length] ∧ (toU32 ([] : List Nat).length).length = 4) ∧
    (∃ b, chopMessage (List.replicate 60 97) = [b] ∧ b.length = 64) ∧
    (∃ b c, chopMessage (List.replicate 61 97) = [b, c] ∧ b.length = 64 ∧ c.length = 1) :=
  ⟨(chopMessage_boundaries []).1 (by decide),
   (chopMessage_boundaries (List.replicate 60 97)).2.1 (by decide),
   (chopMessage_boundaries (List.replicate 61 97)).2.2 (by decide)⟩

theorem strEncodeE_ok (s : List Nat) (hs : ∀ c ∈ s, ¬(55296 ≤ c ∧ c ≤ 57343)) :
    strEncodeE s = Except.ok (strEncode s) := by
  induction s with
  | nil => rfl
  | cons c s ih =>
    have hc : ¬(55296 ≤ c ∧ c ≤ 57343) := hs c (List.mem_cons_self c s)
    simp only [strEncodeE, utf8EncodeE, if_neg hc]
    rw [ih (fun x hx => hs x (List.mem_cons_of_mem c hx))]
    simp only [strEncode, List.flatMap_cons]

/-- C8 (amended): chopMessage is pure and deterministic — two runs on equal
payloads return equal results — and on every payload free of lone-surrogate
code points it terminates without raising, returning the block list of the
total function chopMessage; the excluded payloads are exactly those on which
the source raises UnicodeEncodeError from its str.encode() call. -/
theorem chopMessage_deterministic_no_surrogates (s t : List Nat) (h : s = t)
    (hs : ∀ c ∈ s, ¬(55296 ≤ c ∧ c ≤ 57343)) :
    chopMessageE s = chopMessageE t ∧ chopMessageE s = Except.ok (chopMessage s) := by
  subst h
  refine ⟨rfl, ?_⟩
  unfold chopMessageE
  rw [strEncodeE_ok s hs]
  rfl

/-- C8 witness: two runs on the equal, surrogate-free payload [97]. -/
theorem chopMessage_deterministic_no_surrogates_witness :
    (∀ c ∈ ([97] : List Nat), ¬(55296 ≤ c ∧ c ≤ 57343)) ∧
    (chopMessageE [97] = chopMessageE [97] ∧
     chopMessageE [97] = Except.ok (chopMessage [97])) :=
  ⟨by decide, chopMessage_deterministic_no_surrogates [97] [97] rfl (by decide)⟩

/-- C8 counterexample: the one-character payload consisting of the lone
surrogate U+D800 (code point 55296) — a payload well inside the representable
length range — makes str.encode(), and hence chopMessage, raise
UnicodeEncodeError instead of returning blocks: chopMessage does have a
failure mode, so "no failure modes / terminates without raising on every
payload" is false of the code. -/
theorem chopMessage_raises_counterexample :
    chopMessageE [55296] = Except.error "UnicodeEncodeError" ∧
    ∀ blocks, chopMessageE [55296] ≠ Except.ok blocks := by
  refine ⟨rfl, ?_⟩
  intro blocks hc
  rw [show chopMessageE [55296] = Except.error "UnicodeEncodeError" from rfl] at hc
  exact Except.noConfusion hc

/-- C9: toU32 is total on the naturals and returns exactly 4 bytes whose
little-endian value is x mod 2^32; in particular it silently wraps on inputs
of 2^32 and beyond instead of failing. -/
theorem toU32_bytes_le_value (x : Nat) :
    (toU32 x).length = 4 ∧
    leVal (toU32 x) = x % 2 ^ 32 ∧
    toU32 (x + 2 ^ 32) = toU32 x := by
  have h32 : (2 : Nat) ^ 32 = 4294967296 := by norm_num
  refine ⟨rfl, ?_, ?_⟩
  · rw [h32]
    simp only [toU32, leVal, List.foldr_cons, List.foldr_nil]
    omega
  · rw [h32]
    simp only [toU32, List.cons.injEq, and_true]
    refine ⟨by omega, by omega, by omega, by omega⟩

/-- C10: the blocks of chopMessage concatenate to toU32(len(s)) followed by
the UTF-8 bytes of s, so the total byte count is 4 plus the encoded byte
count while the header announces the character count (mod 2^32); the two
counts coincide exactly when every character encodes to one UTF-8 byte. -/
theorem chopMessage_header_vs_bytes (s : List Nat) (_hs : ∀ c ∈ s, c < 1114112) :
    (chopMessage s).flatten = toU32 s.length ++ strEncode s ∧
    ((chopMessage s).flatten).length = 4 + (strEncode s).length ∧
    leVal (((chopMessage s).flatten).take 4) = s.length % 2 ^ 32 ∧
    ((strEncode s).length = s.length ↔ ∀ c ∈ s, (utf8Encode c).length = 1) := by
  refine ⟨chopMessage_flatten_eq s, ?_, ?_, strEncode_length_eq_iff s⟩
  · rw [chopMessage_flatten_eq, List.length_append, toU32_length]
  · rw [chopMessage_flatten_eq, List.take_left' (toU32_length _)]
    have h32 : (2 : Nat) ^ 32 = 4294967296 := by norm_num
    rw [h32]
    simp only [toU32, leVal, List.foldr_cons, List.foldr_nil]
    omega

/-- C10 witness: the two-character string [104, 233] ("h" then "é"): 3 encoded
bytes against a header announcing 2 characters. -/
theorem chopMessage_header_vs_bytes_witness :
    (∀ c ∈ ([104, 233] : List Nat), c < 1114112) ∧
    ((chopMessage [104, 233]).flatten = toU32 ([104, 233] : List Nat).length ++ strEncode [104, 233] ∧
     ((chopMessage [104, 233]).flatten).length = 4 + (strEncode [104, 233]).length ∧
     leVal (((chopMessage [104, 233]).flatten).take 4) = ([104, 233] : List Nat).length % 2 ^ 32 ∧
     ((strEncode [104, 233]).length = ([104, 233] : List Nat).length ↔
       ∀ c ∈ ([104, 233] : List Nat), (utf8Encode c).length = 1)) :=
  ⟨by decide, chopMessage_header_vs_bytes [104, 233] (by decide)⟩

/-- C2: over a non-empty block list whose writes all succeed, with empty-ack
reads at every non-final index and a 32-byte read at the final index, the
transfer succeeds with exactly that response as the digest, and its event
trace is precisely write-then-read per index in index order (hence exactly N
writes and N reads, each write directly before its read, each index complete
before the next starts). -/
theorem transfer_all_acks_success (blocks : List (List Nat)) (t : Transport) (d : List Nat)
    (hne : blocks ≠ [])
    (hw : ∀ i, i < blocks.length → t.writeRes i = Except.ok ())
    (hr : ∀ i, i + 1 < blocks.length → t.readRes i = Except.ok [])
    (hlast : t.readRes (blocks.length - 1) = Except.ok d)
    (hd : d.length = 32) :
    transfer t blocks = (okTrace blocks.length d 0 blocks, Outcome.success d) ∧
    (transfer t blocks).1.countP isWriteEvent = blocks.length ∧
    (transfer t blocks).1.countP isReadEvent = blocks.length := by
  have hmain : transfer t blocks = (okTrace blocks.length d 0 blocks, Outcome.success d) := by
    unfold transfer
    exact transferLoop_all_acks t blocks.length d hd hlast blocks 0 (by omega) hne
      (fun j _ hjn => hw j hjn) (fun j _ hjn => hr j hjn)
  refine ⟨hmain, ?_, ?_⟩
  · rw [hmain]
    exact okTrace_countP_write _ _ _ _
  · rw [hmain]
    exact okTrace_countP_read _ _ _ _

def T2 : Transport where
  writeRes := fun _ => Except.ok ()
  readRes := fun i => if i = 1 then Except.ok (List.replicate 32 7) else Except.ok []

/-- C2 witness: two blocks, an empty ack then a 32-byte digest. -/
theorem transfer_all_acks_success_witness :
    transfer T2 [[5], [6]] =
      (okTrace 2 (List.replicate 32 7) 0 [[5], [6]], Outcome.success (List.replicate 32 7)) ∧
    (transfer T2 [[5], [6]]).1.countP isWriteEvent = 2 ∧
    (transfer T2 [[5], [6]]).1.countP isReadEvent = 2 :=
  transfer_all_acks_success [[5], [6]] T2 (List.replicate 32 7) (by decide)
    (fun _ _ => rfl)
    (fun i hi => by
      have h0 : i = 0 := by
        simp only [List.length_cons, List.length_nil] at hi
        omega
      subst h0
      rfl)
    rfl (by decide)

/-- C3: if the transfer reaches a non-final index i (all earlier blocks
written and acknowledged with empty reads) and the read at i returns a
non-empty response, the transfer raises the device-reported error whose
message is the response decoded one character per byte, and no block with
index greater than i is ever written. -/
theorem transfer_midstream_error (blocks : List (List Nat)) (t : Transport) (i : Nat)
    (resp : List Nat)
    (hi : i + 1 < blocks.length)
    (hw : ∀ j, j ≤ i → t.writeRes j = Except.ok ())
    (hr : ∀ j, j < i → t.readRes j = Except.ok [])
    (hri : t.readRes i = Except.ok resp)
    (hrne : resp ≠ []) :
    (transfer t blocks).2 = Outcome.raised (deviceErrorMsg resp) ∧
    ∀ j b, Event.write j b ∈ (transfer t blocks).1 → j ≤ i := by
  have hpre := transferLoop_ack_prior t blocks.length i blocks 0 (by omega) (by omega)
    (by omega) (fun j _ hji => hw j (by omega)) (fun j _ hji => hr j (by omega))
  have h0i : 0 + i = i := by omega
  rw [h0i] at hpre
  obtain ⟨b, rest, hbr⟩ := List.exists_cons_of_ne_nil
    (show blocks.drop i ≠ [] from by
      rw [← List.length_pos, List.length_drop]
      omega)
  have hlen0 : resp.length ≠ 0 := by
    intro hc
    exact hrne (List.length_eq_zero.mp hc)
  rw [hbr, transferLoop_cons_mid_err t blocks.length i b rest resp (hw i le_rfl) hri
    (by omega) hlen0] at hpre
  unfold transfer
  rw [hpre]
  refine ⟨rfl, ?_⟩
  intro j bb hmem
  simp only [List.mem_append, List.mem_cons, List.not_mem_nil, or_false] at hmem
  rcases hmem with hmem | hmem | hmem
  · have := ackTrace_write_mem i 0 blocks j bb hmem
    omega
  · rw [Event.write.injEq] at hmem
    omega
  · exact absurd hmem (by simp)

def T3 : Transport where
  writeRes := fun _ => Except.ok ()
  readRes := fun i => if i = 0 then Except.ok [7] else Except.ok []

/-- C3 witness: three blocks, non-empty response [7] at index 0. -/
theorem transfer_midstream_error_witness :
    (transfer T3 [[1], [2], [3]]).2 = Outcome.raised (deviceErrorMsg [7]) ∧
    ∀ j b, Event.write j b ∈ (transfer T3 [[1], [2], [3]]).1 → j ≤ 0 :=
  transfer_midstream_error [[1], [2], [3]] T3 0 [7] (by decide)
    (fun j hj => rfl)
    (fun j hj => absurd hj (Nat.not_lt_zero j))
    rfl (by decide)

/-- C4: if the transfer reaches the final block and its read returns zero
bytes, the transfer raises the incomplete-handshake error ("device expected
more data than was announced"), which is distinct from every device-reported
error message, and the outcome is not success. -/
theorem transfer_final_zero_response (blocks : List (List Nat)) (t : Transport)
    (hne : blocks ≠ [])
    (hw : ∀ j, j < blocks.length → t.writeRes j = Except.ok ())
    (hr : ∀ j, j + 1 < blocks.length → t.readRes j = Except.ok [])
    (hlast : t.readRes (blocks.length - 1) = Except.ok []) :
    (transfer t blocks).2 = Outcome.raised incompleteHandshakeMsg ∧
    (∀ resp, Outcome.raised incompleteHandshakeMsg ≠ Outcome.raised (deviceErrorMsg resp)) ∧
    (∀ dg, (transfer t blocks).2 ≠ Outcome.success dg) := by
  have hN : 0 < blocks.length := List.length_pos.mpr hne
  have hpre := transferLoop_ack_prior t blocks.length (blocks.length - 1) blocks 0 (by omega)
    (by omega) (by omega)
    (fun j _ hji => hw j (by omega)) (fun j _ hji => hr j (by omega))
  have h0i : 0 + (blocks.length - 1) = blocks.length - 1 := by omega
  rw [h0i] at hpre
  obtain ⟨b, rest, hbr⟩ := List.exists_cons_of_ne_nil
    (show blocks.drop (blocks.length - 1) ≠ [] from by
      rw [← List.length_pos, List.length_drop]
      omega)
  rw [hbr, transferLoop_cons_last t blocks.length (blocks.length - 1) b rest []
    (hw _ (by omega)) hlast (by omega)] at hpre
  rw [if_pos (show ([] : List Nat).length = 0 from rfl)] at hpre
  have hout : (transfer t blocks).2 = Outcome.raised incompleteHandshakeMsg := by
    unfold transfer
    rw [hpre]
  refine ⟨hout, ?_, ?_⟩
  · intro resp hc
    rw [Outcome.raised.injEq] at hc
    exact incomplete_ne_deviceError resp hc
  · intro dg
    rw [hout]
    simp

def T4 : Transport where
  writeRes := fun _ => Except.ok ()
  readRes := fun _ => Except.ok []

/-- C4 witness: a single block whose read returns zero bytes. -/
theorem transfer_final_zero_response_witness :
    (transfer T4 [[1]]).2 = Outcome.raised incompleteHandshakeMsg ∧
    (∀ resp, Outcome.raised incompleteHandshakeMsg ≠ Outcome.raised (deviceErrorMsg resp)) ∧
    (∀ dg, (transfer T4 [[1]]).2 ≠ Outcome.success dg) :=
  transfer_final_zero_response [[1]] T4 (by decide)
    (fun j hj => rfl)
    (fun j hj => absurd hj (by
      simp only [List.length_cons, List.length_nil] at hj
      omega))
    rfl

/-- C5: if the transfer reaches the final block and its read returns a
response whose length is neither 0 nor 32, the transfer raises the
device-reported error whose message is the response decoded one character
per byte. -/
theorem transfer_final_wrong_length (blocks : List (List Nat)) (t : Transport)
    (resp : List Nat)
    (hne : blocks ≠ [])
    (hw : ∀ j, j < blocks.length → t.writeRes j = Except.ok ())
    (hr : ∀ j, j + 1 < blocks.length → t.readRes j = Except.ok [])
    (hlast : t.readRes (blocks.length - 1) = Except.ok resp)
    (h0 : resp.length ≠ 0) (h32 : resp.length ≠ 32) :
    (transfer t blocks).2 = Outcome.raised (deviceErrorMsg resp) := by
  have hN : 0 < blocks.length := List.length_pos.mpr hne
  have hpre := transferLoop_ack_prior t blocks.length (blocks.length - 1) blocks 0 (by omega)
    (by omega) (by omega)
    (fun j _ hji => hw j (by omega)) (fun j _ hji => hr j (by omega))
  have h0i : 0 + (blocks.length - 1) = blocks.length - 1 := by omega
  rw [h0i] at hpre
  obtain ⟨b, rest, hbr⟩ := List.exists_cons_of_ne_nil
    (show blocks.drop (blocks.length - 1) ≠ [] from by
      rw [← List.length_pos, List.length_drop]
      omega)
  rw [hbr, transferLoop_cons_last t blocks.length (blocks.length - 1) b rest resp
    (hw _ (by omega)) hlast (by omega)] at hpre
  rw [if_neg h0, if_pos h32] at hpre
  unfold transfer
  rw [hpre]

def T5 : Transport where
  writeRes := fun _ => Except.ok ()
  readRes := fun _ => Except.ok [9, 9]

/-- C5 witness: a single block whose read returns the 2-byte response [9, 9]. -/
theorem transfer_final_wrong_length_witness :
    (transfer T5 [[1]]).2 = Outcome.raised (deviceErrorMsg [9, 9]) :=
  transfer_final_wrong_length [[1]] T5 [9, 9] (by decide)
    (fun j hj => rfl)
    (fun j hj => absurd hj (by
      simp only [List.length_cons, List.length_nil] at hj
      omega))
    rfl (by decide) (by decide)

/-- C6 (amended): a transport write failure at index i aborts the transfer
immediately, with the error of the transport itself propagating verbatim — not
wrapped in any structure naming the stage or the index — and no block with
index i or greater is written. -/
theorem transfer_write_failure_propagates (blocks : List (List Nat)) (t : Transport)
    (i : Nat) (e : String)
    (hi : i < blocks.length)
    (hw : ∀ j, j < i → t.writeRes j = Except.ok ())
    (hr : ∀ j, j < i → t.readRes j = Except.ok [])
    (hwi : t.writeRes i = Except.error e) :
    (transfer t blocks).2 = Outcome.raised e ∧
    ∀ j b, Event.write j b ∈ (transfer t blocks).1 → j < i := by
  have hpre := transferLoop_ack_prior t blocks.length i blocks 0 (by omega) (by omega)
    (by omega) (fun j _ hji => hw j (by omega)) (fun j _ hji => hr j (by omega))
  have h0i : 0 + i = i := by omega
  rw [h0i] at hpre
  obtain ⟨b, rest, hbr⟩ := List.exists_cons_of_ne_nil
    (show blocks.drop i ≠ [] from by
      rw [← List.length_pos, List.length_drop]
      omega)
  rw [hbr, transferLoop_cons_write_err t blocks.length i b rest e hwi] at hpre
  unfold transfer
  rw [hpre]
  refine ⟨rfl, ?_⟩
  intro j bb hmem
  simp only [List.append_nil] at hmem
  have := ackTrace_write_mem i 0 blocks j bb hmem
  omega

def T6w : Transport where
  writeRes := fun j => if j = 1 then Except.error "late boom" else Except.ok ()
  readRes := fun _ => Except.ok []

/-- C6 amended-claim witness: the write of block 1 fails with "late boom". -/
theorem transfer_write_failure_propagates_witness :
    (transfer T6w [[1], [2], [3]]).2 = Outcome.raised "late boom" ∧
    ∀ j b, Event.write j b ∈ (transfer T6w [[1], [2], [3]]).1 → j < 1 :=
  transfer_write_failure_propagates [[1], [2], [3]] T6w 1 "late boom" (by decide)
    (fun j hj => by
      have h0 : j = 0 := by omega
      subst h0
      rfl)
    (fun j hj => rfl)
    rfl

def T6c : Transport where
  writeRes := fun _ => Except.error "boom"
  readRes := fun _ => Except.ok []

/-- C6 counterexample: when the very first write fails, the transport error
"boom" is surfaced verbatim as the failure (with an empty event trace); the
surfaced message contains no capital letter and no digit, so it names neither
the stage (Send) nor the block index 0, contrary to the claim that every
surfaced failure message names the stage and the block index. -/
theorem transfer_write_failure_counterexample :
    transfer T6c [[1], [2]] = ([], Outcome.raised "boom") ∧
    (∀ c ∈ "boom".data, ¬(('A' ≤ c ∧ c ≤ 'Z') ∨ ('0' ≤ c ∧ c ≤ '9'))) := by
  exact ⟨by decide, by decide⟩

end SendData
